import Mathlib

/-!
# Verification of the `braillefb` framebuffer-to-braille renderer

Shallow embedding of `src/lib.rs`: a framebuffer view over a flat pixel
buffer that renders 2x4 pixel blocks as Unicode braille characters.

Pixels are modelled as `Bool` (the `T : Copy + Into<u8>` parameter
instantiated at `bool`, as in all the crate's examples and tests, with
`Into<u8>` giving `Bool.toNat`).  Rust `usize` arithmetic is modelled by
`Nat` (the quantities involved stay far below `2^64`, and no claim turns
on wrap-around).  A Rust panic is modelled as the `Except.error` case (or
`Option.none` for `get_char`, whose only panic source is slice indexing);
a total companion function (suffix `T`) models the same computation with
the panicking access replaced by a defaulted access, and the refinement
between the two is proved (claim C6).
-/

namespace Braillefb

/-- The braille dot offsets `(x, y)` visited in order dot 8, 7, 6, 5, 4, 3,
2, 1; from `BIT_OFFSETS` in `src/lib.rs`. -/
def BIT_OFFSETS : List (Nat × Nat) :=
  [(1, 3), (0, 3), (1, 2), (1, 1), (1, 0), (0, 2), (0, 1), (0, 0)]

/-- Block width in pixels (`CHAR_WIDTH` in `src/lib.rs`). -/
def CHAR_WIDTH : Nat := 2

/-- Block height in pixels (`CHAR_HEIGHT` in `src/lib.rs`). -/
def CHAR_HEIGHT : Nat := 4

/-- The hardcoded 256-entry braille character table (`CHARS` in
`src/lib.rs`), transcribed literally. -/
def CHARS : List Char := [
  '⠀', '⠁', '⠂', '⠃', '⠄', '⠅', '⠆', '⠇', '⠈', '⠉', '⠊', '⠋', '⠌', '⠍', '⠎', '⠏',
  '⠐', '⠑', '⠒', '⠓', '⠔', '⠕', '⠖', '⠗', '⠘', '⠙', '⠚', '⠛', '⠜', '⠝', '⠞', '⠟',
  '⠠', '⠡', '⠢', '⠣', '⠤', '⠥', '⠦', '⠧', '⠨', '⠩', '⠪', '⠫', '⠬', '⠭', '⠮', '⠯',
  '⠰', '⠱', '⠲', '⠳', '⠴', '⠵', '⠶', '⠷', '⠸', '⠹', '⠺', '⠻', '⠼', '⠽', '⠾', '⠿',
  '⡀', '⡁', '⡂', '⡃', '⡄', '⡅', '⡆', '⡇', '⡈', '⡉', '⡊', '⡋', '⡌', '⡍', '⡎', '⡏',
  '⡐', '⡑', '⡒', '⡓', '⡔', '⡕', '⡖', '⡗', '⡘', '⡙', '⡚', '⡛', '⡜', '⡝', '⡞', '⡟',
  '⡠', '⡡', '⡢', '⡣', '⡤', '⡥', '⡦', '⡧', '⡨', '⡩', '⡪', '⡫', '⡬', '⡭', '⡮', '⡯',
  '⡰', '⡱', '⡲', '⡳', '⡴', '⡵', '⡶', '⡷', '⡸', '⡹', '⡺', '⡻', '⡼', '⡽', '⡾', '⡿',
  '⢀', '⢁', '⢂', '⢃', '⢄', '⢅', '⢆', '⢇', '⢈', '⢉', '⢊', '⢋', '⢌', '⢍', '⢎', '⢏',
  '⢐', '⢑', '⢒', '⢓', '⢔', '⢕', '⢖', '⢗', '⢘', '⢙', '⢚', '⢛', '⢜', '⢝', '⢞', '⢟',
  '⢠', '⢡', '⢢', '⢣', '⢤', '⢥', '⢦', '⢧', '⢨', '⢩', '⢪', '⢫', '⢬', '⢭', '⢮', '⢯',
  '⢰', '⢱', '⢲', '⢳', '⢴', '⢵', '⢶', '⢷', '⢸', '⢹', '⢺', '⢻', '⢼', '⢽', '⢾', '⢿',
  '⣀', '⣁', '⣂', '⣃', '⣄', '⣅', '⣆', '⣇', '⣈', '⣉', '⣊', '⣋', '⣌', '⣍', '⣎', '⣏',
  '⣐', '⣑', '⣒', '⣓', '⣔', '⣕', '⣖', '⣗', '⣘', '⣙', '⣚', '⣛', '⣜', '⣝', '⣞', '⣟',
  '⣠', '⣡', '⣢', '⣣', '⣤', '⣥', '⣦', '⣧', '⣨', '⣩', '⣪', '⣫', '⣬', '⣭', '⣮', '⣯',
  '⣰', '⣱', '⣲', '⣳', '⣴', '⣵', '⣶', '⣷', '⣸', '⣹', '⣺', '⣻', '⣼', '⣽', '⣾', '⣿'
]

/-- One iteration of the loop body of `get_char` in `src/lib.rs`, with the
panicking slice access `framebuffer[xx + yy * width]` modelled by
`List.get?` (`none` = panic).  The shift `n <<= 1` on a `u8` keeps the low
8 bits, hence the `% 256`. -/
def get_char_step (framebuffer : List Bool) (x_offset y_offset width height : Nat)
    (n : Nat) (p : Nat × Nat) : Option Nat :=
  let n := (n <<< 1) % 256
  let xx := x_offset + p.1
  let yy := y_offset + p.2
  if width ≤ xx ∨ height ≤ yy then some n
  else (framebuffer.get? (xx + yy * width)).map (fun b => n ||| b.toNat)

/-- `get_char` from `src/lib.rs`: builds the 8-bit mask over `BIT_OFFSETS`
and looks up the braille character; `none` models a panic (out-of-bounds
slice access). -/
def get_char (framebuffer : List Bool) (x_offset y_offset width height : Nat) :
    Option Char :=
  (BIT_OFFSETS.foldlM (get_char_step framebuffer x_offset y_offset width height) 0).bind
    (fun n => CHARS.get? n)

/-- One iteration of the loop body of `get_char`, total model: out-of-range
buffer access defaulted to `false` (proved unreachable in claim C6). -/
def get_charT_step (framebuffer : List Bool) (x_offset y_offset width height : Nat)
    (n : Nat) (p : Nat × Nat) : Nat :=
  let n := (n <<< 1) % 256
  let xx := x_offset + p.1
  let yy := y_offset + p.2
  if width ≤ xx ∨ height ≤ yy then n
  else n ||| (framebuffer.getD (xx + yy * width) false).toNat

/-- The mask computed by `get_char`, total model. -/
def get_char_mask (framebuffer : List Bool) (x_offset y_offset width height : Nat) :
    Nat :=
  BIT_OFFSETS.foldl (get_charT_step framebuffer x_offset y_offset width height) 0

/-- `get_char`, total model (see `get_char`). -/
def get_charT (framebuffer : List Bool) (x_offset y_offset width height : Nat) :
    Char :=
  CHARS.getD (get_char_mask framebuffer x_offset y_offset width height) ' '

/-- `to_char` from `src/lib.rs`: encode a single 2x4 block (the Rust
`[T; 8]` argument is modelled as a list, used at length 8). -/
def to_char (f : List Bool) : Option Char :=
  get_char f 0 0 CHAR_WIDTH CHAR_HEIGHT

/-- The 8-bit mask as the spec's claim C1 describes it: dot `k`'s bit has
weight `2^(k-1)`, dots at local offsets dot1=(0,0), dot2=(0,1), dot3=(0,2),
dot4=(1,0), dot5=(1,1), dot6=(1,2), dot7=(0,3), dot8=(1,3) of a row-major
2x4 block (so dot `k` at `(dx, dy)` reads list position `dx + 2 * dy`). -/
def braille_mask (b : List Bool) : Nat :=
  (b.getD 0 false).toNat
    + 2 * (b.getD 2 false).toNat
    + 4 * (b.getD 4 false).toNat
    + 8 * (b.getD 1 false).toNat
    + 16 * (b.getD 3 false).toNat
    + 32 * (b.getD 5 false).toNat
    + 64 * (b.getD 6 false).toNat
    + 128 * (b.getD 7 false).toNat

instance {ε α : Type} [DecidableEq ε] [DecidableEq α] : DecidableEq (Except ε α) :=
  fun a b =>
    match a, b with
    | Except.error e, Except.error e' =>
      if h : e = e' then isTrue (by rw [h])
      else isFalse (by intro hh; injection hh; exact h (by assumption))
    | Except.error _, Except.ok _ => isFalse (by intro hh; exact Except.noConfusion hh)
    | Except.ok _, Except.error _ => isFalse (by intro hh; exact Except.noConfusion hh)
    | Except.ok a, Except.ok b =>
      if h : a = b then isTrue (by rw [h])
      else isFalse (by intro hh; injection hh; exact h (by assumption))

/-- `round_up` (the helper nested in `Framebuffer::new` in `src/lib.rs`). -/
def round_up (input multiple : Nat) : Nat :=
  ((input + multiple - 1) / multiple) * multiple

/-- `Framebuffer` from `src/lib.rs`: a borrowed pixel buffer with its
dimensions and the derived character-grid dimensions. -/
structure Framebuffer where
  framebuffer : List Bool
  width : Nat
  height : Nat
  x_chars_count : Nat
  y_chars_count : Nat
deriving DecidableEq, Repr

/-- `Framebuffer::new` from `src/lib.rs`; the `assert_eq!` panic on a
length mismatch is modelled by `none`. -/
def Framebuffer.new (framebuffer : List Bool) (width height : Nat) :
    Option Framebuffer :=
  if framebuffer.length = width * height then
    some
      { framebuffer := framebuffer
        width := width
        height := height
        x_chars_count := round_up width CHAR_WIDTH / CHAR_WIDTH + 1
        y_chars_count := round_up height CHAR_HEIGHT / CHAR_HEIGHT }
  else
    none

/-- `Offsets` from `src/lib.rs`. -/
inductive Offsets where
  | Char (x_offset y_offset : Nat)
  | Linebreak
  | End
deriving DecidableEq, Repr

/-- `Framebuffer::offsets` from `src/lib.rs`. -/
def Framebuffer.offsets (f : Framebuffer) (index : Nat) : Offsets :=
  if 0 < index ∧ (index + 1) % f.x_chars_count = 0 then
    Offsets.Linebreak
  else
    let rows := index / f.x_chars_count
    let y_offset := rows * CHAR_HEIGHT
    if f.height ≤ y_offset then
      Offsets.End
    else
      let cols := index % f.x_chars_count
      let x_offset := cols * CHAR_WIDTH
      Offsets.Char x_offset y_offset

/-- `Framebuffer::get_inner` from `src/lib.rs`; `Except.error` models a
panic escaping from `get_char`, the inner `Option` is the Rust
`Option<&char>`. -/
def Framebuffer.get_inner (f : Framebuffer) (index : Nat) :
    Except String (Option Char) :=
  match f.offsets index with
  | Offsets.Char x_offset y_offset =>
    match get_char f.framebuffer x_offset y_offset f.width f.height with
    | some c => Except.ok (some c)
    | none => Except.error "index out of bounds"
  | Offsets.Linebreak => Except.ok (some '\n')
  | Offsets.End => Except.ok none

/-- `Framebuffer::get` from `src/lib.rs`. -/
def Framebuffer.get (f : Framebuffer) (index : Nat) : Except String (Option Char) :=
  f.get_inner index

/-- `Framebuffer::get`, total model: the panic branch (proved unreachable
for a framebuffer built by `Framebuffer.new`) is replaced by the defaulted
encoder `get_charT`. -/
def Framebuffer.getT (f : Framebuffer) (index : Nat) : Option Char :=
  match f.offsets index with
  | Offsets.Char x_offset y_offset =>
    some (get_charT f.framebuffer x_offset y_offset f.width f.height)
  | Offsets.Linebreak => some '\n'
  | Offsets.End => none

/-- `Framebuffer::len` from `src/lib.rs`. -/
def Framebuffer.len (f : Framebuffer) : Nat :=
  f.y_chars_count * f.x_chars_count

/-- `Framebuffer::is_empty` from `src/lib.rs`. -/
def Framebuffer.is_empty (f : Framebuffer) : Bool :=
  f.framebuffer.isEmpty

/-- The `Index<usize>` impl for `Framebuffer` from `src/lib.rs`
(`f[index]`): `unwrap_or_else` turns `None` into a panic whose message
reports the length and the index. -/
def Framebuffer.index (f : Framebuffer) (i : Nat) : Except String Char :=
  match f.get_inner i with
  | Except.error e => Except.error e
  | Except.ok (some c) => Except.ok c
  | Except.ok none =>
    Except.error
      ("index out of bounds: the len is " ++ toString f.len
        ++ " but the index is " ++ toString i)

/-- `Iter` from `src/lib.rs`: a borrowed framebuffer plus the cursor. -/
structure Iter where
  inner : Framebuffer
  index : Nat
deriving DecidableEq, Repr

/-- The `IntoIterator` impl for `&Framebuffer` from `src/lib.rs`: a fresh
iterator starting at index 0. -/
def Framebuffer.into_iter (f : Framebuffer) : Iter :=
  { inner := f, index := 0 }

/-- `Iter::next` from `src/lib.rs`; `Except.error` models a panic escaping
from `get_char`, `Except.ok none` is iterator exhaustion. -/
def Iter.next (it : Iter) : Except String (Option (Char × Iter)) :=
  match it.inner.offsets it.index with
  | Offsets.Char x_offset y_offset =>
    match get_char it.inner.framebuffer x_offset y_offset it.inner.width it.inner.height with
    | some c => Except.ok (some (c, { inner := it.inner, index := it.index + 1 }))
    | none => Except.error "index out of bounds"
  | Offsets.Linebreak =>
    Except.ok (some ('\n', { inner := it.inner, index := it.index + 1 }))
  | Offsets.End => Except.ok none

/-- `Iter::size_hint` from `src/lib.rs`: always the total framebuffer
length, whatever the cursor. -/
def Iter.size_hint (it : Iter) : Nat × Option Nat :=
  (it.inner.len, some it.inner.len)

/-- Consume `k` items from the iterator (stops early on exhaustion or
panic); used to express "at every point of the traversal". -/
def Iter.advance (it : Iter) : Nat → Iter
  | 0 => it
  | k + 1 =>
    match it.next with
    | Except.ok (some (_, it2)) => it2.advance k
    | _ => it

/-- Collect at most `fuel` characters from the iterator.  The Rust
traversal is an unbounded loop; `fuel` makes it a Lean function, and
termination of the loop is expressed as the output stabilising once
`fuel` is large enough. -/
def Iter.takeFuel (it : Iter) : Nat → Except String (List Char)
  | 0 => Except.ok []
  | fuel + 1 =>
    match it.next with
    | Except.error e => Except.error e
    | Except.ok none => Except.ok []
    | Except.ok (some (c, it2)) => (it2.takeFuel fuel).map (fun l => c :: l)

/-- The `fmt::Display` impl for `Framebuffer` from `src/lib.rs`
(`to_string`): write out every character the iterator yields, here under
a fuel bound. -/
def Framebuffer.to_string (f : Framebuffer) (fuel : Nat) : Except String String :=
  (f.into_iter.takeFuel fuel).map (fun l => String.mk l)

/-- The concatenation, in index order, of the characters returned by
`Framebuffer.get` for indices `0..len`. -/
def Framebuffer.getChars (f : Framebuffer) : List Char :=
  (List.range f.len).filterMap (fun i => (f.get i).toOption.bind id)

/-! ## Helper lemmas -/

set_option maxRecDepth 100000 in
theorem CHARS_length : CHARS.length = 256 := by decide

set_option maxRecDepth 100000 in
theorem CHARS_getD_eq (i : Nat) (h : i < 256) :
    CHARS.getD i ' ' = Char.ofNat (0x2800 + i) := by
  revert i
  decide

set_option maxRecDepth 100000 in
theorem CHARS_getD_ne_lf (i : Nat) : CHARS.getD i ' ' ≠ '\n' := by
  rcases Nat.lt_or_ge i 256 with h | h
  · revert i
    decide
  · rw [List.getD_eq_default _ _ (le_trans (le_of_eq CHARS_length) h)]
    decide

theorem CHARS_get?_eq_getD (i : Nat) (h : i < 256) :
    CHARS.get? i = some (CHARS.getD i ' ') := by
  have hl : i < CHARS.length := by rw [CHARS_length]; exact h
  rw [List.get?_eq_getElem?, List.getElem?_eq_getElem hl,
    List.getD_eq_getElem?_getD, List.getElem?_eq_getElem hl]
  rfl

theorem get_charT_step_lt (framebuffer : List Bool)
    (x_offset y_offset width height n : Nat) (p : Nat × Nat) :
    get_charT_step framebuffer x_offset y_offset width height n p < 256 := by
  simp only [get_charT_step]
  have hsh : (n <<< 1) % 256 < 256 := Nat.mod_lt _ (by norm_num)
  split
  · exact hsh
  · have h256 : (256 : Nat) = 2 ^ 8 := by norm_num
    have hb : (framebuffer.getD (x_offset + p.1 + (y_offset + p.2) * width) false).toNat
        < 2 ^ 8 := by
      cases framebuffer.getD (x_offset + p.1 + (y_offset + p.2) * width) false <;> decide
    rw [h256] at hsh ⊢
    exact Nat.or_lt_two_pow hsh hb

theorem foldl_get_charT_step_lt (framebuffer : List Bool)
    (x_offset y_offset width height : Nat) (l : List (Nat × Nat)) (n : Nat)
    (hn : n < 256) :
    l.foldl (get_charT_step framebuffer x_offset y_offset width height) n < 256 := by
  induction l generalizing n with
  | nil => simpa using hn
  | cons p l ih => rw [List.foldl_cons]; exact ih _ (get_charT_step_lt ..)

theorem get_char_mask_lt (framebuffer : List Bool)
    (x_offset y_offset width height : Nat) :
    get_char_mask framebuffer x_offset y_offset width height < 256 :=
  foldl_get_charT_step_lt framebuffer x_offset y_offset width height BIT_OFFSETS 0
    (by norm_num)

theorem get_char_step_eq (framebuffer : List Bool)
    (x_offset y_offset width height : Nat)
    (hlen : framebuffer.length = width * height) (n : Nat) (p : Nat × Nat) :
    get_char_step framebuffer x_offset y_offset width height n p
      = some (get_charT_step framebuffer x_offset y_offset width height n p) := by
  simp only [get_char_step, get_charT_step]
  split
  · rfl
  · rename_i hin
    push_neg at hin
    obtain ⟨hx, hy⟩ := hin
    have hidx : x_offset + p.1 + (y_offset + p.2) * width < framebuffer.length := by
      rw [hlen]
      have h1 : (y_offset + p.2 + 1) * width ≤ height * width :=
        Nat.mul_le_mul_right width hy
      calc x_offset + p.1 + (y_offset + p.2) * width
          < width + (y_offset + p.2) * width := by omega
        _ = (y_offset + p.2 + 1) * width := by ring
        _ ≤ height * width := h1
        _ = width * height := Nat.mul_comm ..
    rw [List.get?_eq_getElem?, List.getElem?_eq_getElem hidx,
      List.getD_eq_getElem?_getD, List.getElem?_eq_getElem hidx]
    rfl

theorem foldlM_get_char_step_eq (framebuffer : List Bool)
    (x_offset y_offset width height : Nat)
    (hlen : framebuffer.length = width * height) (l : List (Nat × Nat)) (n : Nat) :
    l.foldlM (get_char_step framebuffer x_offset y_offset width height) n
      = some (l.foldl (get_charT_step framebuffer x_offset y_offset width height) n) := by
  induction l generalizing n with
  | nil => rfl
  | cons p l ih =>
    rw [List.foldlM_cons, List.foldl_cons,
      get_char_step_eq framebuffer x_offset y_offset width height hlen n p]
    exact ih _

/-- The encoder refinement: on a buffer of the advertised length the
panicking encoder never panics and agrees with the total model. -/
theorem get_char_eq_getT (framebuffer : List Bool)
    (x_offset y_offset width height : Nat)
    (hlen : framebuffer.length = width * height) :
    get_char framebuffer x_offset y_offset width height
      = some (get_charT framebuffer x_offset y_offset width height) := by
  unfold get_char get_charT
  rw [foldlM_get_char_step_eq framebuffer x_offset y_offset width height hlen]
  rw [Option.some_bind]
  exact CHARS_get?_eq_getD _ (get_char_mask_lt ..)

/-- Well-formedness: exactly the state of a `Framebuffer` produced by
`Framebuffer.new`. -/
def Framebuffer.WF (f : Framebuffer) : Prop :=
  f.framebuffer.length = f.width * f.height
    ∧ f.x_chars_count = (f.width + 1) / 2 + 1
    ∧ f.y_chars_count = (f.height + 3) / 4

theorem round_up_two_div (w : Nat) : round_up w 2 / 2 = (w + 1) / 2 := by
  unfold round_up
  rw [Nat.mul_div_cancel _ (by norm_num)]
  omega

theorem round_up_four_div (h : Nat) : round_up h 4 / 4 = (h + 3) / 4 := by
  unfold round_up
  rw [Nat.mul_div_cancel _ (by norm_num)]
  omega

theorem new_eq_some_iff (b : List Bool) (w h : Nat) (f : Framebuffer) :
    Framebuffer.new b w h = some f
      ↔ (b.length = w * h
          ∧ f = { framebuffer := b, width := w, height := h,
                  x_chars_count := (w + 1) / 2 + 1,
                  y_chars_count := (h + 3) / 4 }) := by
  unfold Framebuffer.new
  split
  · rename_i hl
    simp only [Option.some.injEq, CHAR_WIDTH, CHAR_HEIGHT,
      round_up_two_div, round_up_four_div, hl, true_and]
    constructor
    · intro he; exact he.symm
    · intro he; exact he.symm
  · rename_i hl
    simp only [reduceCtorEq, false_iff, not_and]
    intro hc
    exact absurd hc hl

theorem wf_of_new (b : List Bool) (w h : Nat) (f : Framebuffer)
    (hnew : Framebuffer.new b w h = some f) :
    f.WF ∧ f.framebuffer = b ∧ f.width = w ∧ f.height = h := by
  obtain ⟨hl, hf⟩ := (new_eq_some_iff b w h f).mp hnew
  subst hf
  exact ⟨⟨hl, rfl, rfl⟩, rfl, rfl, rfl⟩

theorem Framebuffer.WF.x_pos {f : Framebuffer} (hwf : f.WF) :
    0 < f.x_chars_count := by
  rw [hwf.2.1]; omega

theorem Framebuffer.WF.x_two {f : Framebuffer} (hwf : f.WF) (hw : 0 < f.width) :
    2 ≤ f.x_chars_count := by
  rw [hwf.2.1]; omega

theorem Framebuffer.WF.y_mul_four {f : Framebuffer} (hwf : f.WF) :
    f.height ≤ f.y_chars_count * 4 := by
  rw [hwf.2.2]; omega

theorem Framebuffer.WF.height_pos_of_len_pos {f : Framebuffer} (hwf : f.WF)
    (hlen : 0 < f.len) : 0 < f.height := by
  unfold Framebuffer.len at hlen
  rcases Nat.eq_zero_or_pos f.height with h0 | h1
  · rw [hwf.2.2, h0] at hlen
    simp at hlen
  · exact h1

/-- Linebreak positions, exactly as the guard in `Framebuffer::offsets`
tests them. -/
def Framebuffer.IsLinebreakIndex (f : Framebuffer) (index : Nat) : Prop :=
  0 < index ∧ (index + 1) % f.x_chars_count = 0

instance (f : Framebuffer) (index : Nat) : Decidable (f.IsLinebreakIndex index) :=
  inferInstanceAs (Decidable (_ ∧ _))

theorem offsets_eq_linebreak (f : Framebuffer) (index : Nat)
    (h : f.IsLinebreakIndex index) : f.offsets index = Offsets.Linebreak := by
  unfold Framebuffer.IsLinebreakIndex at h
  unfold Framebuffer.offsets
  rw [if_pos h]

theorem offsets_of_not_linebreak (f : Framebuffer) (index : Nat)
    (h : ¬ f.IsLinebreakIndex index) :
    f.offsets index
      = (if f.height ≤ index / f.x_chars_count * CHAR_HEIGHT then Offsets.End
         else Offsets.Char (index % f.x_chars_count * CHAR_WIDTH)
               (index / f.x_chars_count * CHAR_HEIGHT)) := by
  unfold Framebuffer.IsLinebreakIndex at h
  unfold Framebuffer.offsets
  rw [if_neg h]

/-- Past the total length, any index that is not a linebreak position is
classified `End`. -/
theorem offsets_end_of_ge_len (f : Framebuffer) (hwf : f.WF) (index : Nat)
    (hge : f.len ≤ index) (h : ¬ f.IsLinebreakIndex index) :
    f.offsets index = Offsets.End := by
  rw [offsets_of_not_linebreak f index h]
  have hx : 0 < f.x_chars_count := hwf.x_pos
  have hrows : f.y_chars_count ≤ index / f.x_chars_count := by
    rw [Nat.le_div_iff_mul_le hx]
    exact hge
  have : f.height ≤ index / f.x_chars_count * CHAR_HEIGHT := by
    calc f.height ≤ f.y_chars_count * 4 := hwf.y_mul_four
      _ ≤ index / f.x_chars_count * 4 := Nat.mul_le_mul_right 4 hrows
      _ = index / f.x_chars_count * CHAR_HEIGHT := rfl
  rw [if_pos this]

/-- Strictly inside the grid, no index is classified `End`. -/
theorem offsets_ne_end_of_lt_len (f : Framebuffer) (hwf : f.WF) (index : Nat)
    (hlt : index < f.len) : f.offsets index ≠ Offsets.End := by
  by_cases h : f.IsLinebreakIndex index
  · rw [offsets_eq_linebreak f index h]
    exact fun hc => Offsets.noConfusion hc
  · rw [offsets_of_not_linebreak f index h]
    have hx : 0 < f.x_chars_count := hwf.x_pos
    have hh : 0 < f.height :=
      hwf.height_pos_of_len_pos (Nat.lt_of_le_of_lt (Nat.zero_le index) hlt)
    have hrows : index / f.x_chars_count < f.y_chars_count := by
      rw [Nat.div_lt_iff_lt_mul hx]
      exact hlt

    have hy : index / f.x_chars_count * CHAR_HEIGHT < f.height := by
      have h4 : index / f.x_chars_count * 4 ≤ (f.y_chars_count - 1) * 4 :=
        Nat.mul_le_mul_right 4 (by omega)
      have hyc : f.y_chars_count = (f.height + 3) / 4 := hwf.2.2
      show index / f.x_chars_count * 4 < f.height
      omega
    rw [if_neg (not_le.mpr hy)]
    exact fun hc => Offsets.noConfusion hc

/-- At exactly `len`, provided the width is positive (or the framebuffer has
no rows), the grid ends. -/
theorem offsets_len_eq_end (f : Framebuffer) (hwf : f.WF)
    (hpos : 0 < f.width ∨ f.height = 0) : f.offsets f.len = Offsets.End := by
  have hnl : ¬ f.IsLinebreakIndex f.len := by
    rcases hpos with hw | hh
    · intro ⟨_, hmod⟩
      have hx2 : 2 ≤ f.x_chars_count := hwf.x_two hw
      unfold Framebuffer.len at hmod
      rw [Nat.mul_comm, Nat.mul_add_mod] at hmod
      rw [Nat.mod_eq_of_lt (by omega)] at hmod
      omega
    · intro ⟨hpos', _⟩
      unfold Framebuffer.len at hpos'
      rw [hwf.2.2, hh] at hpos'
      simp at hpos'
  exact offsets_end_of_ge_len f hwf f.len (le_refl _) hnl

theorem getT_eq_none_iff (f : Framebuffer) (i : Nat) :
    f.getT i = none ↔ f.offsets i = Offsets.End := by
  unfold Framebuffer.getT
  cases f.offsets i <;> simp

theorem getT_of_offsets_char (f : Framebuffer) (i x y : Nat)
    (h : f.offsets i = Offsets.Char x y) :
    f.getT i = some (get_charT f.framebuffer x y f.width f.height) := by
  unfold Framebuffer.getT
  rw [h]

theorem getT_of_offsets_linebreak (f : Framebuffer) (i : Nat)
    (h : f.offsets i = Offsets.Linebreak) : f.getT i = some '\n' := by
  unfold Framebuffer.getT
  rw [h]

/-- Under well-formedness the panicking accessor agrees with the total
model everywhere. -/
theorem get_inner_eq_getT (f : Framebuffer) (hwf : f.WF) (index : Nat) :
    f.get_inner index = Except.ok (f.getT index) := by
  unfold Framebuffer.get_inner Framebuffer.getT
  cases hoff : f.offsets index with
  | Char x y =>
    dsimp only
    rw [get_char_eq_getT f.framebuffer x y f.width f.height hwf.1]
  | Linebreak => rfl
  | End => rfl

theorem get_eq_getT (f : Framebuffer) (hwf : f.WF) (index : Nat) :
    f.get index = Except.ok (f.getT index) :=
  get_inner_eq_getT f hwf index

theorem get_charT_ne_lf (framebuffer : List Bool) (x y w h : Nat) :
    get_charT framebuffer x y w h ≠ '\n' := by
  unfold get_charT
  exact CHARS_getD_ne_lf _

theorem getT_eq_lf_iff (f : Framebuffer) (index : Nat) :
    f.getT index = some '\n' ↔ f.IsLinebreakIndex index := by
  by_cases h : f.IsLinebreakIndex index
  · rw [getT_of_offsets_linebreak f index (offsets_eq_linebreak f index h)]
    simp [h]
  · unfold Framebuffer.getT
    rw [offsets_of_not_linebreak f index h]
    by_cases hend : f.height ≤ index / f.x_chars_count * CHAR_HEIGHT
    · rw [if_pos hend]
      simp [h]
    · rw [if_neg hend]
      dsimp only
      simp only [Option.some.injEq]
      exact iff_of_false
        (get_charT_ne_lf f.framebuffer (index % f.x_chars_count * CHAR_WIDTH)
          (index / f.x_chars_count * CHAR_HEIGHT) f.width f.height) h

theorem Iter.next_eq (it : Iter) (hwf : it.inner.WF) :
    it.next = Except.ok ((it.inner.getT it.index).map
      (fun c => (c, { inner := it.inner, index := it.index + 1 }))) := by
  unfold Iter.next Framebuffer.getT
  cases hoff : it.inner.offsets it.index with
  | Char x y =>
    dsimp only
    rw [get_char_eq_getT it.inner.framebuffer x y it.inner.width it.inner.height hwf.1]
    rfl
  | Linebreak => rfl
  | End => rfl

/-- Closed form of the bounded traversal: starting at index `i` inside the
grid, with enough fuel, the iterator yields exactly the characters of
indices `i, i+1, ..., len-1`. -/
theorem takeFuel_eq (f : Framebuffer) (hwf : f.WF)
    (hpos : 0 < f.width ∨ f.height = 0) :
    ∀ (fuel i : Nat), i ≤ f.len → f.len - i ≤ fuel →
      Iter.takeFuel { inner := f, index := i } fuel
        = Except.ok ((List.range (f.len - i)).filterMap (fun j => f.getT (i + j))) := by
  intro fuel
  induction fuel with
  | zero =>
    intro i hle hfuel
    have h0 : f.len - i = 0 := by omega
    rw [h0]
    rfl
  | succ fuel ih =>
    intro i hle hfuel
    by_cases hi : i = f.len
    · subst hi
      have hend : f.offsets f.len = Offsets.End := offsets_len_eq_end f hwf hpos
      simp only [Iter.takeFuel]
      rw [Iter.next_eq _ hwf]
      simp only [(getT_eq_none_iff f f.len).mpr hend, Option.map_none', Nat.sub_self]
      rfl
    · have hlt : i < f.len := lt_of_le_of_ne hle hi
      have hne : f.offsets i ≠ Offsets.End := offsets_ne_end_of_lt_len f hwf i hlt
      cases hgt : f.getT i with
      | none => exact absurd ((getT_eq_none_iff f i).mp hgt) hne
      | some c =>
        simp only [Iter.takeFuel]
        rw [Iter.next_eq _ hwf]
        simp only [hgt, Option.map_some']
        rw [ih (i + 1) (by omega) (by omega)]
        have hsplit : (List.range (f.len - i)).filterMap (fun j => f.getT (i + j))
            = c :: (List.range (f.len - (i + 1))).filterMap (fun j => f.getT (i + 1 + j)) := by
          rw [show f.len - i = (f.len - (i + 1)) + 1 from by omega,
            List.range_succ_eq_map, List.filterMap_cons]
          simp only [Nat.add_zero, hgt, List.filterMap_map]
          refine congrArg (fun l => c :: l) (List.filterMap_congr ?_)
          intro x _
          simp only [Function.comp_apply, Nat.succ_eq_add_one]
          rw [show i + (x + 1) = i + 1 + x from by omega]
        rw [hsplit]
        rfl

/-- The traversal from a fresh iterator, with any sufficient fuel, is the
character sequence of indices `0..len`. -/
theorem into_iter_takeFuel_eq (f : Framebuffer) (hwf : f.WF)
    (hpos : 0 < f.width ∨ f.height = 0) (fuel : Nat) (hfuel : f.len ≤ fuel) :
    f.into_iter.takeFuel fuel
      = Except.ok ((List.range f.len).filterMap f.getT) := by
  unfold Framebuffer.into_iter
  rw [takeFuel_eq f hwf hpos fuel 0 (Nat.zero_le _) (by omega)]
  rw [Nat.sub_zero]
  exact congrArg Except.ok (List.filterMap_congr (fun x _ => by rw [Nat.zero_add]))

theorem getChars_eq (f : Framebuffer) (hwf : f.WF) :
    f.getChars = (List.range f.len).filterMap f.getT := by
  unfold Framebuffer.getChars
  refine List.filterMap_congr ?_
  intro x _
  rw [get_eq_getT f hwf x]
  rfl

theorem Iter.next_inner (it it2 : Iter) (c : Char)
    (h : it.next = Except.ok (some (c, it2))) : it2.inner = it.inner := by
  unfold Iter.next at h
  cases hoff : it.inner.offsets it.index <;> rw [hoff] at h <;> dsimp only at h
  · rename_i x y
    cases hgc : get_char it.inner.framebuffer x y it.inner.width it.inner.height
      <;> rw [hgc] at h <;> dsimp only at h
    · exact Except.noConfusion h
    · simp only [Except.ok.injEq, Option.some.injEq, Prod.mk.injEq] at h
      rw [← h.2]
  · simp only [Except.ok.injEq, Option.some.injEq, Prod.mk.injEq] at h
    rw [← h.2]
  · simp only [Except.ok.injEq, reduceCtorEq] at h

theorem Iter.advance_inner (it : Iter) (k : Nat) : (it.advance k).inner = it.inner := by
  induction k generalizing it with
  | zero => rfl
  | succ k ih =>
    unfold Iter.advance
    cases hn : it.next with
    | error e => rfl
    | ok o =>
      cases o with
      | none => rfl
      | some p =>
        rw [ih p.2]
        exact Iter.next_inner it p.2 p.1 (by rw [hn])

theorem braille_mask_lt (b : List Bool) : braille_mask b < 256 := by
  unfold braille_mask
  have h0 : (b.getD 0 false).toNat ≤ 1 := Bool.toNat_le _
  have h1 : (b.getD 1 false).toNat ≤ 1 := Bool.toNat_le _
  have h2 : (b.getD 2 false).toNat ≤ 1 := Bool.toNat_le _
  have h3 : (b.getD 3 false).toNat ≤ 1 := Bool.toNat_le _
  have h4 : (b.getD 4 false).toNat ≤ 1 := Bool.toNat_le _
  have h5 : (b.getD 5 false).toNat ≤ 1 := Bool.toNat_le _
  have h6 : (b.getD 6 false).toNat ≤ 1 := Bool.toNat_le _
  have h7 : (b.getD 7 false).toNat ≤ 1 := Bool.toNat_le _
  omega

theorem get_char_mask_eq_braille_mask (b : List Bool) (hb : b.length = 8) :
    get_char_mask b 0 0 2 4 = braille_mask b := by
  rcases b with _ | ⟨a0, _ | ⟨a1, _ | ⟨a2, _ | ⟨a3, _ | ⟨a4, _ | ⟨a5, _ | ⟨a6, _ | ⟨a7, _ | ⟨a8, tl⟩⟩⟩⟩⟩⟩⟩⟩⟩ <;>
    simp only [List.length] at hb <;> try omega
  cases a0 <;> cases a1 <;> cases a2 <;> cases a3 <;>
    cases a4 <;> cases a5 <;> cases a6 <;> cases a7 <;> decide

theorem to_char_eq_braille_mask (b : List Bool) (hb : b.length = 8) :
    to_char b = some (Char.ofNat (0x2800 + braille_mask b)) := by
  unfold to_char
  rw [get_char_eq_getT b 0 0 CHAR_WIDTH CHAR_HEIGHT (by rw [hb]; rfl)]
  unfold get_charT
  simp only [CHAR_WIDTH, CHAR_HEIGHT]
  rw [get_char_mask_eq_braille_mask b hb]
  rw [CHARS_getD_eq _ (braille_mask_lt b)]

/-! ## Example framebuffers (shared by witnesses and counterexamples) -/

/-- A 4x4 pixel example framebuffer, in the state `Framebuffer.new` gives. -/
def fb44 : Framebuffer :=
  { framebuffer := List.replicate 16 false, width := 4, height := 4,
    x_chars_count := 3, y_chars_count := 1 }

/-- A 4x8 pixel example framebuffer, in the state `Framebuffer.new` gives. -/
def fb48 : Framebuffer :=
  { framebuffer := List.replicate 32 false, width := 4, height := 8,
    x_chars_count := 3, y_chars_count := 2 }

/-- The degenerate width-0 framebuffer over the empty buffer (valid:
`0 = 0 * 1`), in the state `Framebuffer.new` gives. -/
def fb01 : Framebuffer :=
  { framebuffer := [], width := 0, height := 1,
    x_chars_count := 1, y_chars_count := 1 }

/-! ## Claims -/

/-- C1: for every 8-element 1-bit block `b` (row-major 2x4), `to_char b`
returns the Unicode character with codepoint `0x2800 + mask`, where `mask`
is the claim's dot-order mask `braille_mask b` (dot 8 at local offset
(1,3) most significant, dot 1 at (0,0) least significant); and the
256-entry table satisfies `CHARS[i] = codepoint(0x2800 + i)` for every
`i < 256`. -/
theorem claim_C1 (b : List Bool) (hb : b.length = 8) :
    to_char b = some (Char.ofNat (0x2800 + braille_mask b))
      ∧ ∀ i < 256, CHARS.getD i ' ' = Char.ofNat (0x2800 + i) :=
  ⟨to_char_eq_braille_mask b hb, fun i hi => CHARS_getD_eq i hi⟩

set_option maxRecDepth 100000 in
/-- Witness for C1 at the block of the crate's own `to_char` doc test. -/
theorem claim_C1_witness :
    ([true, false, true, true, true, false, false, true] : List Bool).length = 8
      ∧ (to_char [true, false, true, true, true, false, false, true]
            = some (Char.ofNat (0x2800
                + braille_mask [true, false, true, true, true, false, false, true]))
          ∧ ∀ i < 256, CHARS.getD i ' ' = Char.ofNat (0x2800 + i)) :=
  ⟨by decide, claim_C1 [true, false, true, true, true, false, false, true] (by decide)⟩

/-- C2: on a framebuffer built by `Framebuffer.new` (so with
`len(buffer) = width * height`), `get index` returns the line-break
character exactly when `index > 0` and `(index + 1) % x_chars_count = 0`;
in particular `get 0` is never a line-break. -/
theorem claim_C2 (b : List Bool) (w h : Nat) (f : Framebuffer)
    (hnew : Framebuffer.new b w h = some f) (index : Nat) :
    f.get index = Except.ok (some '\n')
      ↔ (0 < index ∧ (index + 1) % f.x_chars_count = 0) := by
  obtain ⟨hwf, -, -, -⟩ := wf_of_new b w h f hnew
  rw [get_eq_getT f hwf index]
  simp only [Except.ok.injEq]
  exact getT_eq_lf_iff f index

set_option maxRecDepth 10000 in
/-- Witness for C2 on the 4x4 framebuffer at index 2 (a line-break). -/
theorem claim_C2_witness :
    Framebuffer.new (List.replicate 16 false) 4 4 = some fb44
      ∧ (fb44.get 2 = Except.ok (some '\n')
          ↔ (0 < 2 ∧ (2 + 1) % fb44.x_chars_count = 0)) :=
  ⟨by decide, claim_C2 (List.replicate 16 false) 4 4 fb44 (by decide) 2⟩

/-- C3 (amended): on a framebuffer built by `Framebuffer.new` with
`width > 0` (or `height = 0`), the Display rendering — the traversal's
output, under any sufficient fuel for the unbounded Rust loop — is
byte-identical to the concatenation, in index order, of the characters
returned by `get index` for `index` in `0..len`.  The original claim,
without the width condition, fails: see `claim_C3_counterexample`. -/
theorem claim_C3 (b : List Bool) (w h : Nat) (f : Framebuffer)
    (hnew : Framebuffer.new b w h = some f) (hpos : 0 < w ∨ h = 0)
    (fuel : Nat) (hfuel : f.len ≤ fuel) :
    f.to_string fuel = Except.ok (String.mk f.getChars) := by
  obtain ⟨hwf, -, hw, hh⟩ := wf_of_new b w h f hnew
  have hpos2 : 0 < f.width ∨ f.height = 0 := by rw [hw, hh]; exact hpos
  unfold Framebuffer.to_string
  rw [into_iter_takeFuel_eq f hwf hpos2 fuel hfuel, getChars_eq f hwf]
  rfl

set_option maxRecDepth 10000 in
/-- Counterexample to C3 as stated: on the valid width-0 framebuffer
(`[] , width 0, height 1`, and `0 = 0 * 1`) the Display loop never
reaches `End` (every index ≥ 1 is a line-break), so its output keeps
growing with fuel and never equals the finite concatenation of `get`. -/
theorem claim_C3_counterexample :
    Framebuffer.new [] 0 1 = some fb01
      ∧ fb01.len ≤ fb01.len + 1
      ∧ fb01.to_string (fb01.len + 1) ≠ Except.ok (String.mk fb01.getChars) := by
  refine ⟨by decide, by omega, ?_⟩
  decide

set_option maxRecDepth 10000 in
/-- Witness for C3 (amended) on the 4x4 framebuffer with exactly enough
fuel. -/
theorem claim_C3_witness :
    Framebuffer.new (List.replicate 16 false) 4 4 = some fb44
      ∧ ((0:Nat) < 4 ∨ (4:Nat) = 0)
      ∧ fb44.len ≤ fb44.len
      ∧ fb44.to_string fb44.len = Except.ok (String.mk fb44.getChars) :=
  ⟨by decide, Or.inl (by decide), le_refl _,
    claim_C3 (List.replicate 16 false) 4 4 fb44 (by decide) (Or.inl (by decide))
      fb44.len (le_refl _)⟩

/-- C4 (amended): on a framebuffer built by `Framebuffer.new`, for every
`index ≥ len` that is NOT a line-break position (`index > 0` and
`(index + 1) % x_chars_count = 0`), `get index` returns no value
(`Except.ok none`), a normal end-of-sequence signal.  The original claim
— `none` for every `index ≥ len` — fails at past-the-end line-break
positions: see `claim_C4_counterexample`. -/
theorem claim_C4 (b : List Bool) (w h : Nat) (f : Framebuffer)
    (hnew : Framebuffer.new b w h = some f) (index : Nat)
    (hge : f.len ≤ index)
    (hnl : ¬ (0 < index ∧ (index + 1) % f.x_chars_count = 0)) :
    f.get index = Except.ok none := by
  obtain ⟨hwf, -, -, -⟩ := wf_of_new b w h f hnew
  rw [get_eq_getT f hwf index]
  rw [(getT_eq_none_iff f index).mpr (offsets_end_of_ge_len f hwf index hge hnl)]

set_option maxRecDepth 10000 in
/-- Counterexample to C4 as stated: on the 4x8 framebuffer, `len = 6`, yet
`get 8` returns the line-break character, not "no value". -/
theorem claim_C4_counterexample :
    Framebuffer.new (List.replicate 32 false) 4 8 = some fb48
      ∧ fb48.len ≤ 8
      ∧ fb48.get 8 = Except.ok (some '\n')
      ∧ fb48.get 8 ≠ Except.ok none := by
  refine ⟨by decide, by decide, by decide, by decide⟩

set_option maxRecDepth 10000 in
/-- Witness for C4 (amended) on the 4x8 framebuffer at index 6 = len. -/
theorem claim_C4_witness :
    Framebuffer.new (List.replicate 32 false) 4 8 = some fb48
      ∧ fb48.len ≤ 6
      ∧ ¬ (0 < 6 ∧ (6 + 1) % fb48.x_chars_count = 0)
      ∧ fb48.get 6 = Except.ok none :=
  ⟨by decide, by decide, by decide,
    claim_C4 (List.replicate 32 false) 4 8 fb48 (by decide) 6 (by decide) (by decide)⟩

/-- C5: `Framebuffer.new buffer width height` fails fatally (modelled:
returns `none`) if and only if `len(buffer) ≠ width * height`; when the
lengths match, construction succeeds with exactly these fields (their
values fixed thereafter — the structure is immutable).  `(w + 1) / 2` is
`ceil(w / 2)` and `(h + 3) / 4` is `ceil(h / 4)` on naturals. -/
theorem claim_C5 (b : List Bool) (w h : Nat) :
    (Framebuffer.new b w h = none ↔ b.length ≠ w * h)
      ∧ (b.length = w * h →
          Framebuffer.new b w h
            = some { framebuffer := b, width := w, height := h,
                     x_chars_count := (w + 1) / 2 + 1,
                     y_chars_count := (h + 3) / 4 }) := by
  constructor
  · unfold Framebuffer.new
    split
    · rename_i hl
      exact iff_of_false (by simp) (by simp [hl])
    · rename_i hl
      exact iff_of_true rfl hl
  · intro hl
    exact (new_eq_some_iff b w h _).mpr ⟨hl, rfl⟩

set_option maxRecDepth 10000 in
/-- Witness for C5: a matching-length construction succeeds with the
advertised fields, and a mismatched one fails. -/
theorem claim_C5_witness :
    (List.replicate 2 false).length = 2 * 1
      ∧ Framebuffer.new (List.replicate 2 false) 2 1
          = some { framebuffer := List.replicate 2 false, width := 2, height := 1,
                   x_chars_count := (2 + 1) / 2 + 1, y_chars_count := (1 + 3) / 4 }
      ∧ Framebuffer.new [] 2 1 = none :=
  ⟨by decide, (claim_C5 (List.replicate 2 false) 2 1).2 (by decide),
    (claim_C5 [] 2 1).1.mpr (by decide)⟩

/-- C6: under the precondition `len(buffer) = width * height` the encoder
is total: `get_char` (whose `none` models the panicking slice access)
never panics — the out-of-bounds branch is unreachable, every dot outside
`[0,width) x [0,height)` having been skipped (contributing bit 0) — and
agrees with the total model `get_charT` for any non-negative offsets. -/
theorem claim_C6 (framebuffer : List Bool) (x_offset y_offset width height : Nat)
    (hlen : framebuffer.length = width * height) :
    get_char framebuffer x_offset y_offset width height
      = some (get_charT framebuffer x_offset y_offset width height) :=
  get_char_eq_getT framebuffer x_offset y_offset width height hlen

set_option maxRecDepth 10000 in
/-- Witness for C6 at a block overhanging a 2x2 buffer. -/
theorem claim_C6_witness :
    (List.replicate 4 true).length = 2 * 2
      ∧ get_char (List.replicate 4 true) 1 1 2 2
          = some (get_charT (List.replicate 4 true) 1 1 2 2) :=
  ⟨by decide, claim_C6 (List.replicate 4 true) 1 1 2 2 (by decide)⟩

/-- C7: a framebuffer built by `Framebuffer.new` has
`x_chars_count = ceil(width / 2) + 1` (on naturals, `(w + 1) / 2 + 1`),
`y_chars_count = ceil(height / 4)` (`(h + 3) / 4`), and
`len = y_chars_count * x_chars_count`; all fields are fixed at
construction (the structure is immutable). -/
theorem claim_C7 (b : List Bool) (w h : Nat) (f : Framebuffer)
    (hnew : Framebuffer.new b w h = some f) :
    f.x_chars_count = (w + 1) / 2 + 1
      ∧ f.y_chars_count = (h + 3) / 4
      ∧ f.len = f.y_chars_count * f.x_chars_count := by
  obtain ⟨hwf, -, hw, hh⟩ := wf_of_new b w h f hnew
  subst hw
  subst hh
  exact ⟨hwf.2.1, hwf.2.2, rfl⟩

set_option maxRecDepth 10000 in
/-- Witness for C7 on the 4x8 framebuffer: 3 characters across, 2 down,
length 6. -/
theorem claim_C7_witness :
    Framebuffer.new (List.replicate 32 false) 4 8 = some fb48
      ∧ fb48.x_chars_count = (4 + 1) / 2 + 1
      ∧ fb48.y_chars_count = (8 + 3) / 4
      ∧ fb48.len = fb48.y_chars_count * fb48.x_chars_count :=
  ⟨by decide, claim_C7 (List.replicate 32 false) 4 8 fb48 (by decide)⟩

/-- C8 (amended): on a framebuffer built by `Framebuffer.new` with
`width > 0` (or `height = 0`), the traversal is finite: no index below
`len` is classified `End`, index `len` is the first `End`, the collected
output stabilises once the fuel reaches `len`, and a fresh `into_iter`
always starts at index 0 (the framebuffer itself holds no cursor — the
cursor is a field of `Iter`).  The original claim, without the width
condition, fails: see `claim_C8_counterexample`. -/
theorem claim_C8 (b : List Bool) (w h : Nat) (f : Framebuffer)
    (hnew : Framebuffer.new b w h = some f) (hpos : 0 < w ∨ h = 0) :
    (∀ i, i < f.len → f.offsets i ≠ Offsets.End)
      ∧ f.offsets f.len = Offsets.End
      ∧ (∀ fuel, f.len ≤ fuel →
          f.into_iter.takeFuel fuel = f.into_iter.takeFuel f.len)
      ∧ f.into_iter = { inner := f, index := 0 } := by
  obtain ⟨hwf, -, hw, hh⟩ := wf_of_new b w h f hnew
  have hpos2 : 0 < f.width ∨ f.height = 0 := by rw [hw, hh]; exact hpos
  refine ⟨fun i hi => offsets_ne_end_of_lt_len f hwf i hi,
    offsets_len_eq_end f hwf hpos2, fun fuel hf => ?_, rfl⟩
  rw [into_iter_takeFuel_eq f hwf hpos2 fuel hf,
    into_iter_takeFuel_eq f hwf hpos2 f.len (le_refl _)]

/-- Counterexample to C8 as stated: on the valid width-0 framebuffer no
index at all is classified `End` (index 0 is a character cell and every
other index is a line-break), so the traversal never terminates. -/
theorem claim_C8_counterexample :
    Framebuffer.new [] 0 1 = some fb01
      ∧ ¬ ∃ n, fb01.offsets n = Offsets.End := by
  refine ⟨by decide, ?_⟩
  rintro ⟨n, hn⟩
  match n with
  | 0 => exact absurd hn (by decide)
  | Nat.succ m =>
    rw [offsets_eq_linebreak fb01 (m + 1) ⟨Nat.succ_pos m, Nat.mod_one (m + 2)⟩] at hn
    exact Offsets.noConfusion hn

set_option maxRecDepth 10000 in
/-- Witness for C8 (amended) on the 4x4 framebuffer. -/
theorem claim_C8_witness :
    Framebuffer.new (List.replicate 16 false) 4 4 = some fb44
      ∧ ((0:Nat) < 4 ∨ (4:Nat) = 0)
      ∧ ((∀ i, i < fb44.len → fb44.offsets i ≠ Offsets.End)
          ∧ fb44.offsets fb44.len = Offsets.End
          ∧ (∀ fuel, fb44.len ≤ fuel →
              fb44.into_iter.takeFuel fuel = fb44.into_iter.takeFuel fb44.len)
          ∧ fb44.into_iter = { inner := fb44, index := 0 }) :=
  ⟨by decide, Or.inl (by decide),
    claim_C8 (List.replicate 16 false) 4 4 fb44 (by decide) (Or.inl (by decide))⟩

/-- C9 (amended): on a framebuffer built by `Framebuffer.new`, the strict
accessor `f[index]` fails fatally for every `index ≥ len` that is not a
line-break position, with a message reporting both the attempted index
and the total length.  The original claim — a panic for every
`index ≥ len` — fails at past-the-end line-break positions: see
`claim_C9_counterexample`. -/
theorem claim_C9 (b : List Bool) (w h : Nat) (f : Framebuffer)
    (hnew : Framebuffer.new b w h = some f) (i : Nat)
    (hge : f.len ≤ i)
    (hnl : ¬ (0 < i ∧ (i + 1) % f.x_chars_count = 0)) :
    f.index i
      = Except.error ("index out of bounds: the len is " ++ toString f.len
          ++ " but the index is " ++ toString i) := by
  obtain ⟨hwf, -, -, -⟩ := wf_of_new b w h f hnew
  unfold Framebuffer.index
  rw [get_inner_eq_getT f hwf i]
  rw [(getT_eq_none_iff f i).mpr (offsets_end_of_ge_len f hwf i hge hnl)]

set_option maxRecDepth 10000 in
/-- Counterexample to C9 as stated: on the 4x8 framebuffer, `len = 6`, yet
`f[8]` returns the line-break character instead of failing. -/
theorem claim_C9_counterexample :
    Framebuffer.new (List.replicate 32 false) 4 8 = some fb48
      ∧ fb48.len ≤ 8
      ∧ fb48.index 8 = Except.ok '\n' := by
  refine ⟨by decide, by decide, by decide⟩

set_option maxRecDepth 10000 in
/-- Witness for C9 (amended) on the 4x8 framebuffer at index 6 = len. -/
theorem claim_C9_witness :
    Framebuffer.new (List.replicate 32 false) 4 8 = some fb48
      ∧ fb48.len ≤ 6
      ∧ ¬ (0 < 6 ∧ (6 + 1) % fb48.x_chars_count = 0)
      ∧ fb48.index 6
          = Except.error ("index out of bounds: the len is " ++ toString fb48.len
              ++ " but the index is " ++ toString 6) :=
  ⟨by decide, by decide, by decide,
    claim_C9 (List.replicate 32 false) 4 8 fb48 (by decide) 6 (by decide) (by decide)⟩

/-- C10: at every point of a traversal — after consuming any number `k` of
items — `size_hint` returns `(len, some len)`, the total sequence length
of the underlying framebuffer, regardless of how many items have been
consumed. -/
theorem claim_C10 (f : Framebuffer) (k : Nat) :
    (f.into_iter.advance k).size_hint = (f.len, some f.len) := by
  unfold Iter.size_hint
  rw [Iter.advance_inner]
  rfl

end Braillefb
